import Mathlib

/-!
Verification of the vectored asynchronous file I/O layer (`async_file.rs`) of
dbs-async: a shallow embedding of the dual-backend `File` type, of the
`preadv`/`pwritev` syscall wrappers with retry-on-interruption and
partial-read length distribution, and theorems settling the specification's
claims about them.

The operating system is modelled as an oracle: a list of syscall outcomes
consumed by the retry loop, one element per invocation. The raw pointer
stored in the `Uring` variant is modelled as a natural-number address,
dereferenced through an explicit heap function.
-/

namespace DbsAsync

/-- Modelled from the spec: `FileVolatileBuf` (crate module `buf`, outside the
verified source file) describes an externally owned region as a base pointer,
a logical length (`len()`) and a capacity (`cap()`); `len ≤ cap` is its
documented invariant. -/
structure FileVolatileBuf where
  ptr : Nat
  len : Nat
  cap : Nat
deriving DecidableEq, Repr

/-- Modelled from the spec: `FileVolatileBuf::set_size` (an unsafe method, the
caller guarantees the new size fits the capacity) overwrites the logical
length. -/
def FileVolatileBuf.set_size (b : FileVolatileBuf) (sz : Nat) : FileVolatileBuf :=
  { b with len := sz }

/-- The kind of an OS error (`std::io::ErrorKind`): the retry loops only
distinguish `Interrupted` from everything else, so any other kind is carried
verbatim as a numeric code. -/
inductive ErrorKind where
  | interrupted : ErrorKind
  | other : Nat → ErrorKind
deriving DecidableEq, Repr

/-- One outcome of the raw `preadv64`/`pwritev64` syscall: a non-negative byte
count, or a failure whose kind is read from `errno`. -/
inductive SysRet where
  | ok : Nat → SysRet
  | fail : ErrorKind → SysRet
deriving DecidableEq, Repr

/-- The observable outcome of the `preadv`/`pwritev` wrappers: `Ok(count)`
with the final buffer list, `Err(e)` with the (unmodified) buffer list, a
fatal `assert_eq!` failure, or divergence (the oracle ran out while the loop
was still retrying). -/
inductive IoResult where
  | ok : Nat → List FileVolatileBuf → IoResult
  | err : ErrorKind → List FileVolatileBuf → IoResult
  | panicked : IoResult
  | hung : IoResult
deriving DecidableEq, Repr

/-- The length-distribution loop of `preadv` (`async_file.rs` lines 236-244):
walk the buffers in order, grow each one's logical length by
`min(count, cap() - len())`, decrement the count, break once it reaches zero.
Returns the count still undistributed after the walk together with the
updated buffer list. -/
def distribute (count : Nat) : List FileVolatileBuf → Nat × List FileVolatileBuf
  | [] => (count, [])
  | b :: rest =>
    let cnt := min count (b.cap - b.len)
    let b2 := b.set_size (b.len + cnt)
    if count - cnt = 0 then (0, b2 :: rest)
    else
      let r := distribute (count - cnt) rest
      (r.1, b2 :: r.2)

/-- `preadv` (`async_file.rs` lines 221-255): invoke the syscall in a loop,
retrying with unchanged arguments while it fails with `Interrupted`; on a
non-negative return distribute the count over the buffers and
`assert_eq!(count, 0)`; on any other failure return the error with the
buffers untouched. `fd` and `offset` are handed to the syscall and do not
influence the wrapper itself. -/
def preadv (fd : Nat) (sys : List SysRet) (bufs : List FileVolatileBuf)
    (offset : Nat) : IoResult :=
  match sys with
  | [] => .hung
  | .ok res :: _ =>
    let r := distribute res bufs
    if r.1 = 0 then .ok res r.2 else .panicked
  | .fail e :: rest =>
    if e = .interrupted then preadv fd rest bufs offset else .err e bufs

/-- `pwritev` (`async_file.rs` lines 258-282): invoke the syscall in a loop,
retrying with unchanged arguments on `Interrupted`; on a non-negative return
hand the raw count back with the buffers untouched; on any other failure
return the error with the buffers untouched. -/
def pwritev (fd : Nat) (sys : List SysRet) (bufs : List FileVolatileBuf)
    (offset : Nat) : IoResult :=
  match sys with
  | [] => .hung
  | .ok res :: _ => .ok res bufs
  | .fail e :: rest =>
    if e = .interrupted then pwritev fd rest bufs offset else .err e bufs

/-- The "remaining count" of the spec's distribution description: starting
from `count`, walk the buffers and subtract `min(remaining, cap - len)` at
each one. `remAfter count (bufs.take i)` is the remaining count with which
buffer `i` is reached. -/
def remAfter (count : Nat) : List FileVolatileBuf → Nat
  | [] => count
  | b :: rest => remAfter (count - min count (b.cap - b.len)) rest

/-- Total logical length of a buffer list. -/
def sumLen (bufs : List FileVolatileBuf) : Nat :=
  (bufs.map FileVolatileBuf.len).sum

/-- Total free space (`cap - len`) of a buffer list. -/
def sumFree (bufs : List FileVolatileBuf) : Nat :=
  (bufs.map (fun b => b.cap - b.len)).sum

/-- The documented buffer invariant: every logical length fits its capacity. -/
def BufsWF (bufs : List FileVolatileBuf) : Prop :=
  ∀ b ∈ bufs, b.len ≤ b.cap

instance : DecidablePred BufsWF := fun bufs =>
  inferInstanceAs (Decidable (∀ b ∈ bufs, b.len ≤ b.cap))

/-- Everything about a buffer except its logical length: base pointer and
capacity, in list order. -/
def shape (bufs : List FileVolatileBuf) : List (Nat × Nat) :=
  bufs.map (fun b => (b.ptr, b.cap))

/-- The buffer list a wrapper result hands back to the caller (`Ok` and `Err`
both return the list; a panic returns nothing). -/
def IoResult.outBufs : IoResult → Option (List FileVolatileBuf)
  | .ok _ bs => some bs
  | .err _ bs => some bs
  | _ => none

/-- The payload of `File::Tokio`. Modelled from the spec: an open thread-pool
file object is its raw descriptor plus the inode it refers to (the inode
stands for "the underlying file" in same-file statements). -/
structure TokioFile where
  fd : Nat
  inode : Nat
deriving DecidableEq, Repr

/-- The object behind a `File::Uring` handle's raw pointer. Modelled from the
spec: a kernel-queue file object exposing its raw descriptor. -/
structure UringFile where
  fd : Nat
deriving DecidableEq, Repr

/-- The dual-backend `File` enum (`async_file.rs` lines 15-26): a tokio file
object, or the address (`usize`) of a boxed `tokio_uring::fs::File`. -/
inductive File where
  | tokio : TokioFile → File
  | uring : Nat → File
deriving DecidableEq, Repr

/-- A heap assigning to each address the `tokio_uring::fs::File` that a
`Uring` handle's raw pointer dereferences to. -/
def Heap := Nat → UringFile

/-- `File::as_tokio_uring_file` (`async_file.rs` lines 183-190): recover the
raw pointer behind a `Uring` handle; `none` models the panic taken on any
other variant. -/
def File.as_tokio_uring_file : File → Option Nat
  | .uring v => some v
  | _ => none

/-- `impl AsRawFd for File` (`async_file.rs` lines 193-201): the raw
descriptor of either variant; the `Uring` arm goes through
`as_tokio_uring_file` and dereferences the recovered pointer. -/
def File.as_raw_fd (heap : Heap) (f : File) : Option Nat :=
  match f with
  | .tokio tf => some tf.fd
  | .uring _ => f.as_tokio_uring_file.map (fun p => (heap p).fd)

/-- Modelled from the spec: the backend-selection context (`Runtime` in
`async_runtime.rs`, outside the verified source file) is a read-only lookup
returning one of two execution models; `Tokio` carries its runtime handle. -/
inductive Runtime where
  | tokio : Nat → Runtime
  | uring : Runtime
deriving DecidableEq, Repr

/-- The outcome of `File::async_open`: a handle, a verbatim OS open error, or
the `panic!("should not happen")` fall-through arm. -/
inductive OpenResult where
  | ok : File → OpenResult
  | err : ErrorKind → OpenResult
  | panicked : OpenResult
deriving DecidableEq, Repr

/-- The numeric tag `async_open` computes from the runtime lookup
(`Runtime::Tokio(_) => 1`, `Runtime::Uring => 2`, `async_file.rs` lines
35-39). -/
def runtimeTag : Runtime → Nat
  | .tokio _ => 1
  | .uring => 2

/-- `File::async_open` (`async_file.rs` lines 30-59): read the current
runtime from the thread-local context (modelled as consuming the head of a
stream of lookup answers), map it to the tag `1`/`2`, open through the
matching backend and wrap the handle in the matching variant;
`Box::into_raw(Box::new(v))` is modelled by `alloc v`. Returns the result
paired with the unconsumed rest of the context stream, or `none` when the
stream is empty. -/
def async_open (ctx : List Runtime) (alloc : UringFile → Nat)
    (tokioOpen : Except ErrorKind TokioFile)
    (uringOpen : Except ErrorKind UringFile) :
    Option (OpenResult × List Runtime) :=
  match ctx with
  | [] => none
  | rt :: rest =>
    let ty : Nat := runtimeTag rt
    let r : OpenResult :=
      match ty with
      | 1 =>
        match tokioOpen with
        | .ok f => .ok (.tokio f)
        | .error e => .err e
      | 2 =>
        match uringOpen with
        | .ok v => .ok (.uring (alloc v))
        | .error e => .err e
      | _ => .panicked
    some (r, rest)

/-- `File::async_readv_at` (`async_file.rs` lines 81-101): both variants call
the `preadv` wrapper directly on their raw descriptor. -/
def File.async_readv_at (heap : Heap) (f : File) (sys : List SysRet)
    (bufs : List FileVolatileBuf) (offset : Nat) : IoResult :=
  match f with
  | .tokio tf => preadv tf.fd sys bufs offset
  | .uring v => preadv (heap v).fd sys bufs offset

/-- `File::async_writev_at` (`async_file.rs` lines 127-147): both variants
call the `pwritev` wrapper directly on their raw descriptor. -/
def File.async_writev_at (heap : Heap) (f : File) (sys : List SysRet)
    (bufs : List FileVolatileBuf) (offset : Nat) : IoResult :=
  match f with
  | .tokio tf => pwritev tf.fd sys bufs offset
  | .uring v => pwritev (heap v).fd sys bufs offset

/-- `File::async_write_at` (`async_file.rs` lines 104-124): the `Tokio` arm
wraps the buffer in a one-element array and calls `pwritev`; the `Uring` arm
forwards to the backend's native `write_at` (external, modelled as an
oracle result). -/
def File.async_write_at (f : File) (sys : List SysRet)
    (uringNative : IoResult) (buf : FileVolatileBuf) (offset : Nat) : IoResult :=
  match f with
  | .tokio tf => pwritev tf.fd sys [buf] offset
  | .uring _ => uringNative

/-- The file-type information `std::fs::Metadata` carries, reduced to what
the claims compare. -/
structure Metadata where
  fileType : Nat
deriving DecidableEq, Repr

/-- The OS state a metadata query runs against: which descriptors are open
and the file type each open descriptor reports. -/
structure OsState where
  openFds : List Nat
  ftypeOf : Nat → Nat

/-- A typed `std::fs::File` view over a raw descriptor
(`std::fs::File::from_raw_fd`). -/
structure StdFsFile where
  fd : Nat
deriving DecidableEq, Repr

/-- `std::fs::File::from_raw_fd`. -/
def fromRawFd (fd : Nat) : StdFsFile := ⟨fd⟩

/-- Modelled from the spec: `std::fs::File::metadata` succeeds on an open
descriptor and reports its file type; on a closed descriptor it fails. -/
def StdFsFile.osMetadata (st : OsState) (f : StdFsFile) : Except ErrorKind Metadata :=
  if f.fd ∈ st.openFds then .ok ⟨st.ftypeOf f.fd⟩ else .error (.other 9)

/-- `std::mem::forget` applied to a `std::fs::File`: its destructor (which
would close the descriptor) is suppressed, so the OS state is untouched. -/
def mem_forget (st : OsState) (_f : StdFsFile) : OsState := st

/-- `File::metadata` (`async_file.rs` lines 150-166): build a temporary
`std::fs::File` over the variant's raw descriptor (through
`as_tokio_uring_file` for the `Uring` arm), query its metadata, then
`mem::forget` the temporary so the descriptor is not closed. Returns the
query result and the OS state after the call. -/
def File.metadata (heap : Heap) (st : OsState) (f : File) :
    Except ErrorKind Metadata × OsState :=
  let file : StdFsFile :=
    match f with
    | .tokio tf => fromRawFd tf.fd
    | .uring v => fromRawFd (heap v).fd
  let res := file.osMetadata st
  let st2 := mem_forget st file
  (res, st2)

/-- The outcome of `File::async_try_clone`: a new handle, an OS error, or the
`unimplemented!()` panic — a distinct constructor, not an `ErrorKind`. -/
inductive CloneResult where
  | ok : File → CloneResult
  | err : ErrorKind → CloneResult
  | notImplemented : CloneResult
deriving DecidableEq, Repr

/-- Modelled from the spec: `tokio::fs::File::try_clone` duplicates the
descriptor; on success the clone is a new, independently closable descriptor
referring to the same underlying file (same inode). The oracle supplies the
new descriptor number or the OS failure. -/
def tokioTryClone (tf : TokioFile) (os : Except ErrorKind Nat) :
    Except ErrorKind TokioFile :=
  os.map (fun fd2 => { fd := fd2, inode := tf.inode })

/-- `File::async_try_clone` (`async_file.rs` lines 169-176): delegate to the
tokio clone and rewrap for the `Tokio` variant; `unimplemented!()` for the
`Uring` variant. -/
def File.async_try_clone (f : File) (os : Except ErrorKind Nat) : CloneResult :=
  match f with
  | .tokio tf =>
    match tokioTryClone tf os with
    | .ok tf2 => .ok (.tokio tf2)
    | .error e => .err e
  | .uring _ => .notImplemented

/-! ### Helper lemmas about the distribution loop and the retry loops -/

theorem remAfter_zero (bufs : List FileVolatileBuf) : remAfter 0 bufs = 0 := by
  induction bufs with
  | nil => rfl
  | cons b rest ih => simpa [remAfter] using ih

theorem distribute_zero (bufs : List FileVolatileBuf) :
    distribute 0 bufs = (0, bufs) := by
  cases bufs with
  | nil => rfl
  | cons b rest => simp [distribute, FileVolatileBuf.set_size]

theorem distribute_length (c : Nat) (bufs : List FileVolatileBuf) :
    (distribute c bufs).2.length = bufs.length := by
  induction bufs generalizing c with
  | nil => simp [distribute]
  | cons b rest ih =>
    simp only [distribute]
    split
    · simp
    · simpa using ih (c - min c (b.cap - b.len))

theorem distribute_shape (c : Nat) (bufs : List FileVolatileBuf) :
    shape (distribute c bufs).2 = shape bufs := by
  induction bufs generalizing c with
  | nil => simp [distribute]
  | cons b rest ih =>
    simp only [distribute]
    split
    · simp [shape, FileVolatileBuf.set_size]
    · simpa [shape, FileVolatileBuf.set_size] using ih (c - min c (b.cap - b.len))

theorem distribute_sum (c : Nat) (bufs : List FileVolatileBuf) :
    sumLen (distribute c bufs).2 + (distribute c bufs).1 = sumLen bufs + c := by
  induction bufs generalizing c with
  | nil => simp [distribute, sumLen]
  | cons b rest ih =>
    simp only [distribute]
    split
    · next h =>
      simp only [sumLen, List.map_cons, List.sum_cons, FileVolatileBuf.set_size]
      have hmin : min c (b.cap - b.len) ≤ c := Nat.min_le_left _ _
      omega
    · next h =>
      have := ih (c - min c (b.cap - b.len))
      simp only [sumLen, List.map_cons, List.sum_cons, FileVolatileBuf.set_size] at *
      have hmin : min c (b.cap - b.len) ≤ c := Nat.min_le_left _ _
      omega

theorem distribute_rem (c : Nat) (bufs : List FileVolatileBuf) :
    (distribute c bufs).1 = c - min c (sumFree bufs) := by
  induction bufs generalizing c with
  | nil => simp [distribute, sumFree]
  | cons b rest ih =>
    simp only [distribute]
    split
    · next h =>
      simp only [sumFree, List.map_cons, List.sum_cons]
      omega
    · next h =>
      have := ih (c - min c (b.cap - b.len))
      simp only [sumFree, List.map_cons, List.sum_cons] at *
      omega

theorem distribute_wf (c : Nat) (bufs : List FileVolatileBuf) (h : BufsWF bufs) :
    BufsWF (distribute c bufs).2 := by
  induction bufs generalizing c with
  | nil => simpa [distribute] using h
  | cons b rest ih =>
    have hb : b.len ≤ b.cap := h b (by simp)
    have hrest : BufsWF rest := fun x hx => h x (by simp [hx])
    simp only [distribute]
    split
    · intro x hx
      rcases List.mem_cons.mp hx with hx | hx
      · subst hx
        simp only [FileVolatileBuf.set_size]
        omega
      · exact hrest x hx
    · intro x hx
      rcases List.mem_cons.mp hx with hx | hx
      · subst hx
        simp only [FileVolatileBuf.set_size]
        omega
      · exact ih (c - min c (b.cap - b.len)) hrest x hx

theorem distribute_get (c : Nat) (bufs : List FileVolatileBuf) (i : Nat)
    (bi bi' : FileVolatileBuf) (h1 : bufs[i]? = some bi)
    (h2 : ((distribute c bufs).2)[i]? = some bi') :
    bi'.len = bi.len + min (remAfter c (bufs.take i)) (bi.cap - bi.len) := by
  induction bufs generalizing c i with
  | nil => simp at h1
  | cons b rest ih =>
    cases i with
    | zero =>
      simp only [List.getElem?_cons_zero, Option.some.injEq] at h1
      subst h1
      simp only [distribute] at h2
      split at h2 <;>
        · simp only [List.getElem?_cons_zero, Option.some.injEq] at h2
          subst h2
          simp [FileVolatileBuf.set_size, remAfter]
    | succ j =>
      simp only [List.getElem?_cons_succ] at h1
      simp only [distribute] at h2
      split at h2
      · next hbr =>
        simp only [List.getElem?_cons_succ] at h2
        rw [h1] at h2
        cases h2
        have hz : remAfter c (b :: rest.take j)
            = remAfter (c - min c (b.cap - b.len)) (rest.take j) := rfl
        simp [remAfter, List.take_succ_cons, hbr, remAfter_zero]
      · next hbr =>
        simp only [List.getElem?_cons_succ] at h2
        have := ih (c - min c (b.cap - b.len)) j h1 h2
        simpa [List.take_succ_cons, remAfter] using this

theorem preadv_ok_elim (fd offset n : Nat) (sys : List SysRet)
    (bufs bufs2 : List FileVolatileBuf)
    (h : preadv fd sys bufs offset = .ok n bufs2) :
    distribute n bufs = (0, bufs2) := by
  induction sys with
  | nil => simp [preadv] at h
  | cons s rest ih =>
    cases s with
    | ok res =>
      simp only [preadv] at h
      split at h
      · next h0 =>
        cases h
        exact Prod.ext h0 rfl
      · cases h
    | fail e =>
      simp only [preadv] at h
      split at h
      · exact ih h
      · cases h

theorem pwritev_ok_elim (fd offset n : Nat) (sys : List SysRet)
    (bufs bufs2 : List FileVolatileBuf)
    (h : pwritev fd sys bufs offset = .ok n bufs2) :
    bufs2 = bufs
      ∧ ∃ k rest, sys = List.replicate k (.fail .interrupted) ++ .ok n :: rest := by
  induction sys with
  | nil => simp [pwritev] at h
  | cons s rest ih =>
    cases s with
    | ok res =>
      simp only [pwritev] at h
      cases h
      exact ⟨rfl, 0, rest, rfl⟩
    | fail e =>
      simp only [pwritev] at h
      split at h
      · next he =>
        subst he
        obtain ⟨hb, k, rest2, hs⟩ := ih h
        exact ⟨hb, k + 1, rest2, by simp [List.replicate_succ, hs]⟩
      · cases h

theorem preadv_outBufs_shape (fd offset : Nat) (sys : List SysRet)
    (bufs bufs2 : List FileVolatileBuf)
    (h : (preadv fd sys bufs offset).outBufs = some bufs2) :
    shape bufs2 = shape bufs := by
  induction sys with
  | nil => simp [preadv, IoResult.outBufs] at h
  | cons s rest ih =>
    cases s with
    | ok res =>
      simp only [preadv] at h
      split at h
      · simp only [IoResult.outBufs, Option.some.injEq] at h
        subst h
        exact distribute_shape res bufs
      · simp [IoResult.outBufs] at h
    | fail e =>
      simp only [preadv] at h
      split at h
      · exact ih h
      · simp only [IoResult.outBufs, Option.some.injEq] at h
        subst h
        rfl

theorem pwritev_outBufs_eq (fd offset : Nat) (sys : List SysRet)
    (bufs bufs2 : List FileVolatileBuf)
    (h : (pwritev fd sys bufs offset).outBufs = some bufs2) :
    bufs2 = bufs := by
  induction sys with
  | nil => simp [pwritev, IoResult.outBufs] at h
  | cons s rest ih =>
    cases s with
    | ok res =>
      simp only [pwritev, IoResult.outBufs, Option.some.injEq] at h
      exact h.symm
    | fail e =>
      simp only [pwritev] at h
      split at h
      · exact ih h
      · simp only [IoResult.outBufs, Option.some.injEq] at h
        exact h.symm

theorem shape_length {bufs bufs2 : List FileVolatileBuf}
    (h : shape bufs2 = shape bufs) : bufs2.length = bufs.length := by
  have := congrArg List.length h
  simpa [shape] using this

/-! ### Claim theorems -/

/-- C1: for every successful vectored read via `preadv`, the returned count is
distributed over the buffer list in list order — each buffer's logical length
grows by `min(remaining count, cap - len)` where the remaining count starts
at the returned count and is decremented at every buffer; no buffer's length
ever exceeds its capacity; the sum of the per-buffer length increases equals
the returned count; and a count that cannot be absorbed by the whole buffer
list is a fatal assertion failure. -/
theorem preadv_success_distribution
    (fd offset n : Nat) (sys : List SysRet) (bufs bufs2 : List FileVolatileBuf)
    (hwf : BufsWF bufs)
    (h : preadv fd sys bufs offset = .ok n bufs2) :
    bufs2.length = bufs.length
    ∧ BufsWF bufs2
    ∧ sumLen bufs2 = sumLen bufs + n
    ∧ (∀ i bi bi', bufs[i]? = some bi → bufs2[i]? = some bi' →
        bi'.len = bi.len + min (remAfter n (bufs.take i)) (bi.cap - bi.len))
    ∧ (∀ m rest, sumFree bufs < m →
        preadv fd (.ok m :: rest) bufs offset = .panicked) := by
  have hd := preadv_ok_elim fd offset n sys bufs bufs2 h
  refine ⟨?_, ?_, ?_, ?_, ?_⟩
  · have := distribute_length n bufs
    rw [hd] at this
    exact this
  · have := distribute_wf n bufs hwf
    rw [hd] at this
    exact this
  · have := distribute_sum n bufs
    rw [hd] at this
    simpa using this
  · intro i bi bi' h1 h2
    exact distribute_get n bufs i bi bi' h1 (by rw [hd]; exact h2)
  · intro m rest hm
    have hr : (distribute m bufs).1 = m - min m (sumFree bufs) :=
      distribute_rem m bufs
    have hne : (distribute m bufs).1 ≠ 0 := by omega
    simp [preadv, hne]

/-- C1 witness: the spec's concrete scenario — a 4-byte vectored read into two
3-byte buffers fills the first and puts one byte in the second. -/
theorem preadv_success_distribution_witness :
    ([⟨100, 3, 3⟩, ⟨200, 1, 3⟩] : List FileVolatileBuf).length
        = ([⟨100, 0, 3⟩, ⟨200, 0, 3⟩] : List FileVolatileBuf).length
    ∧ BufsWF [⟨100, 3, 3⟩, ⟨200, 1, 3⟩]
    ∧ sumLen [⟨100, 3, 3⟩, ⟨200, 1, 3⟩] = sumLen [⟨100, 0, 3⟩, ⟨200, 0, 3⟩] + 4
    ∧ (∀ i bi bi', ([⟨100, 0, 3⟩, ⟨200, 0, 3⟩] : List FileVolatileBuf)[i]? = some bi →
        ([⟨100, 3, 3⟩, ⟨200, 1, 3⟩] : List FileVolatileBuf)[i]? = some bi' →
        bi'.len = bi.len
          + min (remAfter 4 (([⟨100, 0, 3⟩, ⟨200, 0, 3⟩] :
              List FileVolatileBuf).take i)) (bi.cap - bi.len))
    ∧ (∀ m rest, sumFree [⟨100, 0, 3⟩, ⟨200, 0, 3⟩] < m →
        preadv 7 (.ok m :: rest) [⟨100, 0, 3⟩, ⟨200, 0, 3⟩] 0 = .panicked) :=
  preadv_success_distribution 7 0 4 [.ok 4] [⟨100, 0, 3⟩, ⟨200, 0, 3⟩]
    [⟨100, 3, 3⟩, ⟨200, 1, 3⟩] (by decide) (by decide)

/-- C2: for both `preadv` and `pwritev`, a syscall failure of kind
`Interrupted` is retried with unchanged arguments (so the caller never
observes it), while any other failure kind is returned immediately with the
buffer list unmodified. -/
theorem syscall_interrupted_retried_others_returned
    (fd offset : Nat) (sys : List SysRet) (bufs : List FileVolatileBuf)
    (e : ErrorKind) (he : e ≠ .interrupted) :
    preadv fd (.fail .interrupted :: sys) bufs offset = preadv fd sys bufs offset
    ∧ pwritev fd (.fail .interrupted :: sys) bufs offset = pwritev fd sys bufs offset
    ∧ preadv fd (.fail e :: sys) bufs offset = .err e bufs
    ∧ pwritev fd (.fail e :: sys) bufs offset = .err e bufs := by
  refine ⟨by simp [preadv], by simp [pwritev], ?_, ?_⟩
  · simp [preadv, he]
  · simp [pwritev, he]

/-- C2 witness: at a concrete non-`Interrupted` error kind and concrete
arguments. -/
theorem syscall_interrupted_retried_others_returned_witness :
    preadv 3 [.fail .interrupted] [⟨10, 0, 2⟩] 5 = preadv 3 [] [⟨10, 0, 2⟩] 5
    ∧ pwritev 3 [.fail .interrupted] [⟨10, 0, 2⟩] 5 = pwritev 3 [] [⟨10, 0, 2⟩] 5
    ∧ preadv 3 [.fail (.other 13)] [⟨10, 0, 2⟩] 5 = .err (.other 13) [⟨10, 0, 2⟩]
    ∧ pwritev 3 [.fail (.other 13)] [⟨10, 0, 2⟩] 5 = .err (.other 13) [⟨10, 0, 2⟩] :=
  syscall_interrupted_retried_others_returned 3 5 [] [⟨10, 0, 2⟩]
    (.other 13) (by decide)

/-- C3: a successful `pwritev` performs no length redistribution — the buffer
list is returned exactly as it was and the count of the first settled
syscall outcome is returned as-is; `async_writev_at` and `async_write_at` on
the blocking (`Tokio`) path are exactly `pwritev` on the raw descriptor. -/
theorem pwritev_success_no_redistribution
    (fd offset n : Nat) (sys : List SysRet) (bufs bufs2 : List FileVolatileBuf)
    (h : pwritev fd sys bufs offset = .ok n bufs2) :
    bufs2 = bufs
    ∧ (∃ k rest, sys = List.replicate k (.fail .interrupted) ++ .ok n :: rest)
    ∧ (∀ heap tf, File.async_writev_at heap (.tokio tf) sys bufs offset
        = pwritev tf.fd sys bufs offset)
    ∧ (∀ tf ur buf, File.async_write_at (.tokio tf) sys ur buf offset
        = pwritev tf.fd sys [buf] offset) := by
  obtain ⟨hb, hk⟩ := pwritev_ok_elim fd offset n sys bufs bufs2 h
  exact ⟨hb, hk, fun heap tf => rfl, fun tf ur buf => rfl⟩

/-- C3 witness: the spec's concrete scenario — writing "tes" and "t" reports
4 bytes and leaves both buffer lengths exactly as supplied. -/
theorem pwritev_success_no_redistribution_witness :
    ([⟨50, 3, 3⟩, ⟨60, 1, 1⟩] : List FileVolatileBuf) = [⟨50, 3, 3⟩, ⟨60, 1, 1⟩]
    ∧ (∃ k rest, ([.ok 4] : List SysRet)
        = List.replicate k (.fail .interrupted) ++ .ok 4 :: rest)
    ∧ (∀ heap tf, File.async_writev_at heap (.tokio tf) [.ok 4]
        [⟨50, 3, 3⟩, ⟨60, 1, 1⟩] 0
        = pwritev tf.fd [.ok 4] [⟨50, 3, 3⟩, ⟨60, 1, 1⟩] 0)
    ∧ (∀ tf ur buf, File.async_write_at (.tokio tf) [.ok 4] ur buf 0
        = pwritev tf.fd [.ok 4] [buf] 0) :=
  pwritev_success_no_redistribution 7 0 4 [.ok 4] [⟨50, 3, 3⟩, ⟨60, 1, 1⟩]
    [⟨50, 3, 3⟩, ⟨60, 1, 1⟩] (by decide)

/-- C4: a vectored read whose syscall reports zero bytes — empty buffer list
included — returns success with count 0 and every buffer untouched, never an
error. -/
theorem preadv_zero_count_success (fd offset : Nat) (rest : List SysRet)
    (bufs : List FileVolatileBuf) :
    preadv fd (.ok 0 :: rest) bufs offset = .ok 0 bufs := by
  simp [preadv, distribute_zero]

/-- C5: `async_open` consumes exactly one lookup from the runtime-selection
context, the produced handle's variant matches the looked-up runtime (Tokio
→ `File::Tokio`, Uring → `File::Uring`), and an OS open failure is returned
verbatim with no handle produced. -/
theorem async_open_consults_once_and_matches
    (rt : Runtime) (rest rest2 : List Runtime) (alloc : UringFile → Nat)
    (tokioOpen : Except ErrorKind TokioFile)
    (uringOpen : Except ErrorKind UringFile) (r : OpenResult)
    (h : async_open (rt :: rest) alloc tokioOpen uringOpen = some (r, rest2)) :
    rest2 = rest
    ∧ ((∃ hdl tf, rt = .tokio hdl ∧ tokioOpen = .ok tf ∧ r = .ok (.tokio tf))
      ∨ (∃ hdl e, rt = .tokio hdl ∧ tokioOpen = .error e ∧ r = .err e)
      ∨ (∃ uf, rt = .uring ∧ uringOpen = .ok uf ∧ r = .ok (.uring (alloc uf)))
      ∨ (∃ e, rt = .uring ∧ uringOpen = .error e ∧ r = .err e)) := by
  cases rt with
  | tokio hdl =>
    cases tokioOpen with
    | ok tf =>
      simp only [async_open, runtimeTag, Option.some.injEq, Prod.mk.injEq] at h
      exact ⟨h.2.symm, Or.inl ⟨hdl, tf, rfl, rfl, h.1.symm⟩⟩
    | error e =>
      simp only [async_open, runtimeTag, Option.some.injEq, Prod.mk.injEq] at h
      exact ⟨h.2.symm, Or.inr (Or.inl ⟨hdl, e, rfl, rfl, h.1.symm⟩)⟩
  | uring =>
    cases uringOpen with
    | ok uf =>
      simp only [async_open, runtimeTag, Option.some.injEq, Prod.mk.injEq] at h
      exact ⟨h.2.symm, Or.inr (Or.inr (Or.inl ⟨uf, rfl, rfl, h.1.symm⟩))⟩
    | error e =>
      simp only [async_open, runtimeTag, Option.some.injEq, Prod.mk.injEq] at h
      exact ⟨h.2.symm, Or.inr (Or.inr (Or.inr ⟨e, rfl, rfl, h.1.symm⟩))⟩

/-- C5 witness: opening under a Uring runtime lookup consumes that single
lookup and yields the queue-bound variant at the allocated address. -/
theorem async_open_consults_once_and_matches_witness :
    ([] : List Runtime) = []
    ∧ ((∃ hdl tf, (Runtime.uring : Runtime) = .tokio hdl
          ∧ (Except.error (.other 1) : Except ErrorKind TokioFile) = .ok tf
          ∧ (OpenResult.ok (.uring 7) : OpenResult) = .ok (.tokio tf))
      ∨ (∃ hdl e, (Runtime.uring : Runtime) = .tokio hdl
          ∧ (Except.error (.other 1) : Except ErrorKind TokioFile) = .error e
          ∧ (OpenResult.ok (.uring 7) : OpenResult) = .err e)
      ∨ (∃ uf, (Runtime.uring : Runtime) = .uring
          ∧ (Except.ok ⟨5⟩ : Except ErrorKind UringFile) = .ok uf
          ∧ (OpenResult.ok (.uring 7) : OpenResult)
              = .ok (.uring ((fun _ => 7) uf)))
      ∨ (∃ e, (Runtime.uring : Runtime) = .uring
          ∧ (Except.ok ⟨5⟩ : Except ErrorKind UringFile) = .error e
          ∧ (OpenResult.ok (.uring 7) : OpenResult) = .err e)) :=
  async_open_consults_once_and_matches .uring [] [] (fun _ => 7)
    (.error (.other 1)) (.ok ⟨5⟩) (.ok (.uring 7)) rfl

/-- C6: `as_tokio_uring_file` succeeds (without panicking) exactly on the
`Uring` variant, returning its stored pointer, and panics on every other
variant. -/
theorem as_tokio_uring_file_variant_check (f : File) :
    (∃ v, f = .uring v ∧ f.as_tokio_uring_file = some v)
    ∨ ((∀ v, f ≠ .uring v) ∧ f.as_tokio_uring_file = none) := by
  cases f with
  | tokio tf =>
    exact Or.inr ⟨fun v hv => File.noConfusion hv, rfl⟩
  | uring v =>
    exact Or.inl ⟨v, rfl, rfl⟩

/-- C7: `async_try_clone` on the `Uring` variant fails fast with the
`unimplemented!()` signal, which is a constructor distinct from every OS
error; on the `Tokio` variant a successful clone is a new descriptor
referring to the same underlying file (same inode). -/
theorem async_try_clone_backends (v fd2 : Nat) (tf : TokioFile)
    (os : Except ErrorKind Nat) :
    File.async_try_clone (.uring v) os = .notImplemented
    ∧ (∀ e, (CloneResult.notImplemented : CloneResult) ≠ .err e)
    ∧ (∃ tf2, File.async_try_clone (.tokio tf) (.ok fd2) = .ok (.tokio tf2)
        ∧ tf2.fd = fd2 ∧ tf2.inode = tf.inode) := by
  exact ⟨rfl, fun e h => CloneResult.noConfusion h,
    ⟨⟨fd2, tf.inode⟩, rfl, rfl, rfl⟩⟩

/-- C8: `metadata` leaves the OS state untouched (the temporary
`std::fs::File` is forgotten, so the descriptor stays open), and querying it
twice on the same handle succeeds both times with the same file-type
information. -/
theorem metadata_preserves_descriptor (heap : Heap) (st : OsState) (f : File)
    (fd : Nat) (hfd : f.as_raw_fd heap = some fd) (hopen : fd ∈ st.openFds) :
    (f.metadata heap st).2 = st
    ∧ fd ∈ (f.metadata heap st).2.openFds
    ∧ ∃ md, (f.metadata heap st).1 = .ok md
        ∧ (f.metadata heap (f.metadata heap st).2).1 = .ok md := by
  cases f with
  | tokio tf =>
    simp only [File.as_raw_fd, Option.some.injEq] at hfd
    subst hfd
    refine ⟨rfl, hopen, ⟨st.ftypeOf tf.fd⟩, ?_, ?_⟩ <;>
      simp [File.metadata, StdFsFile.osMetadata, fromRawFd, mem_forget, hopen]
  | uring v =>
    have hfd2 : (heap v).fd = fd := by
      simpa [File.as_raw_fd, File.as_tokio_uring_file] using hfd
    subst hfd2
    refine ⟨rfl, hopen, ⟨st.ftypeOf (heap v).fd⟩, ?_, ?_⟩ <;>
      simp [File.metadata, StdFsFile.osMetadata, fromRawFd, mem_forget, hopen]

/-- C8 witness: a blocking handle over open descriptor 3 — the state is
unchanged, 3 stays open, and two queries agree. -/
theorem metadata_preserves_descriptor_witness :
    ((File.tokio ⟨3, 0⟩).metadata (fun _ => ⟨0⟩) ⟨[3], fun _ => 1⟩).2
        = (⟨[3], fun _ => 1⟩ : OsState)
    ∧ 3 ∈ ((File.tokio ⟨3, 0⟩).metadata (fun _ => ⟨0⟩)
        ⟨[3], fun _ => 1⟩).2.openFds
    ∧ ∃ md, ((File.tokio ⟨3, 0⟩).metadata (fun _ => ⟨0⟩)
            ⟨[3], fun _ => 1⟩).1 = .ok md
        ∧ ((File.tokio ⟨3, 0⟩).metadata (fun _ => ⟨0⟩)
            ((File.tokio ⟨3, 0⟩).metadata (fun _ => ⟨0⟩)
              ⟨[3], fun _ => 1⟩).2).1 = .ok md :=
  metadata_preserves_descriptor (fun _ => ⟨0⟩) ⟨[3], fun _ => 1⟩
    (File.tokio ⟨3, 0⟩) 3 rfl (by decide)

/-- C9: on either variant, whatever buffer list `async_readv_at` or
`async_writev_at` hands back (on success or on error) has the same number of
buffers in the same order with unchanged base pointers and capacities; for
writes even the logical lengths are unchanged. -/
theorem vectored_io_preserves_buffer_shape (heap : Heap) (f : File)
    (sys : List SysRet) (bufs : List FileVolatileBuf) (offset : Nat) :
    (∀ bufs2, (File.async_readv_at heap f sys bufs offset).outBufs = some bufs2 →
        shape bufs2 = shape bufs ∧ bufs2.length = bufs.length)
    ∧ (∀ bufs2, (File.async_writev_at heap f sys bufs offset).outBufs = some bufs2 →
        bufs2 = bufs) := by
  constructor
  · intro bufs2 h2
    have hs : shape bufs2 = shape bufs := by
      cases f with
      | tokio tf => exact preadv_outBufs_shape tf.fd offset sys bufs bufs2 h2
      | uring v => exact preadv_outBufs_shape (heap v).fd offset sys bufs bufs2 h2
    exact ⟨hs, shape_length hs⟩
  · intro bufs2 h2
    cases f with
    | tokio tf => exact pwritev_outBufs_eq tf.fd offset sys bufs bufs2 h2
    | uring v => exact pwritev_outBufs_eq (heap v).fd offset sys bufs bufs2 h2

/-- C10: the `panic!("should not happen")` fall-through arm of `async_open`
is unreachable — every runtime lookup yields tag 1 or tag 2, so the call
never produces the panic outcome. -/
theorem async_open_fallthrough_unreachable (rt : Runtime) (rest : List Runtime)
    (alloc : UringFile → Nat) (tokioOpen : Except ErrorKind TokioFile)
    (uringOpen : Except ErrorKind UringFile) :
    (runtimeTag rt = 1 ∨ runtimeTag rt = 2)
    ∧ ∃ r, async_open (rt :: rest) alloc tokioOpen uringOpen = some (r, rest)
        ∧ r ≠ OpenResult.panicked := by
  cases rt with
  | tokio hdl =>
    refine ⟨Or.inl rfl, ?_⟩
    cases tokioOpen with
    | ok tf => exact ⟨.ok (.tokio tf), rfl, by simp⟩
    | error e => exact ⟨.err e, rfl, by simp⟩
  | uring =>
    refine ⟨Or.inr rfl, ?_⟩
    cases uringOpen with
    | ok uf => exact ⟨.ok (.uring (alloc uf)), rfl, by simp⟩
    | error e => exact ⟨.err e, rfl, by simp⟩

end DbsAsync
